import Mathlib

/-!
# Verification of the model-comparison streaming coordinator

Shallow embedding of the streaming-progress coordinator of the
`ModelComparison` component (SSE run loop, per-worker progress map,
synthetic progress tick, stop/timeout handling and early-result
accumulation).  JavaScript numbers are modelled as rationals (`ℚ`);
`undefined` values of optional fields are modelled as `Option.none`;
JavaScript objects used as string-keyed, insertion-ordered maps are
modelled as association lists with the `{...prev, [k]: v}` update
modelled by `upsert` (replace in place when the key exists, append
otherwise).
-/

/-- Lifecycle status of one worker/model, the `status` field of a
`modelProgress` entry: `'pending' | 'running' | 'completed' | 'failed'`. -/
inductive Status where
  | pending
  | running
  | completed
  | failed
deriving DecidableEq

/-- `result_summary` payload of a `model_complete` event:
`{ word_count, sources_found, duration }`. -/
structure ResultSummary where
  word_count : Int
  sources_found : Int
  duration : ℚ
deriving DecidableEq

/-- The four named stage timings of a `ComparisonResult`. -/
structure StageTimings where
  clarification : ℚ
  research_brief : ℚ
  research_execution : ℚ
  final_report : ℚ
deriving DecidableEq

/-- `ComparisonResult` interface: one worker's full outcome. -/
structure ComparisonResult where
  model : String
  duration : ℚ
  stage_timings : StageTimings
  sources_found : Int
  word_count : Int
  success : Bool
  error : Option String
  report_content : String
  supervisor_tools_used : List String
deriving DecidableEq

/-- `ComparisonSession` interface: the finalized session object carried
by a `session_complete` event. -/
structure ComparisonSession where
  session_id : String
  query : String
  timestamp : String
  results : List ComparisonResult
deriving DecidableEq

/-- One entry of the `modelProgress` record.  `startTime` and
`currentDuration` are `Option` because an entry created by spreading a
missing key (`{...prev[evt.model], ...}` when `prev[evt.model]` is
`undefined`) lacks them, and `model_error` may carry no `elapsed`
(`currentDuration` becomes `undefined`, and a `NaN` duration computed
from a missing `startTime` is likewise modelled as `none`). -/
structure WorkerProgress where
  stage : String
  startTime : Option ℚ
  currentDuration : Option ℚ
  progress : ℚ
  status : Status
  resultSummary : Option ResultSummary
deriving DecidableEq

/-- The component state touched by the run loop: `isRunning`, the
run-level `error` string, `earlyResults`, `latestSession` and the
`modelProgress` map (insertion-ordered association list). -/
structure AppState where
  isRunning : Bool
  error : Option String
  earlyResults : List ComparisonResult
  latestSession : Option ComparisonSession
  modelProgress : List (String × WorkerProgress)
deriving DecidableEq

/-- JavaScript `x || d` for an optional string: `undefined` and the
empty string are falsy. -/
def jsOrStr (o : Option String) (d : String) : String :=
  match o with
  | none => d
  | some s => if s = "" then d else s

/-- JavaScript `x || d` for an optional number: `undefined` and `0` are
falsy. -/
def jsOrNum (o : Option ℚ) (d : ℚ) : ℚ :=
  match o with
  | none => d
  | some x => if x = 0 then d else x

/-- `prev[k]`: first entry with key `k` in the association list. -/
def findEntry (mp : List (String × WorkerProgress)) (k : String) : Option WorkerProgress :=
  match mp with
  | [] => none
  | (k', v) :: rest => if k' = k then some v else findEntry rest k

/-- `{...prev, [k]: v}` on a JavaScript object: replace the value at an
existing key in place, otherwise append the new key at the end. -/
def upsert (mp : List (String × WorkerProgress)) (k : String) (v : WorkerProgress) :
    List (String × WorkerProgress) :=
  match mp with
  | [] => [(k, v)]
  | (k', v') :: rest => if k' = k then (k, v) :: rest else (k', v') :: upsert rest k v

/-- `model_progress` handler body:
`{...prev[evt.model], stage, currentDuration: evt.elapsed, progress: evt.progress, status: 'running'}`.
Fields not written by the spread survive from the old entry when it
exists and are absent otherwise. -/
def progressUpdate (old : Option WorkerProgress) (stg : String) (elapsed pr : ℚ) :
    WorkerProgress :=
  { stage := stg
    startTime := old.bind (fun p => p.startTime)
    currentDuration := some elapsed
    progress := pr
    status := Status.running
    resultSummary := old.bind (fun p => p.resultSummary) }

/-- `model_complete` handler body:
`{...prev[evt.model], stage: 'Completed', currentDuration: evt.elapsed, progress: 100, status: 'completed', resultSummary: evt.result_summary}`. -/
def completeUpdate (old : Option WorkerProgress) (elapsed : ℚ) (rs : Option ResultSummary) :
    WorkerProgress :=
  { stage := "Completed"
    startTime := old.bind (fun p => p.startTime)
    currentDuration := some elapsed
    progress := 100
    status := Status.completed
    resultSummary := rs }

/-- `model_error` handler body:
`{...prev[evt.model], stage: evt.stage || 'Failed', currentDuration: evt.elapsed, progress: evt.progress || 0, status: 'failed'}`. -/
def errorUpdate (old : Option WorkerProgress) (stg : Option String)
    (elapsed : Option ℚ) (pr : Option ℚ) : WorkerProgress :=
  { stage := jsOrStr stg "Failed"
    startTime := old.bind (fun p => p.startTime)
    currentDuration := elapsed
    progress := jsOrNum pr 0
    status := Status.failed
    resultSummary := old.bind (fun p => p.resultSummary) }

/-- `setEarlyResults(prev => [...prev.filter(r => r.model !== evt.model), evt.result])`. -/
def upsertResult (l : List ComparisonResult) (m : String) (r : ComparisonResult) :
    List ComparisonResult :=
  (l.filter (fun x => x.model != m)) ++ [r]

/-- The closed set of decoded SSE event kinds dispatched by the read
loop; `other` stands for any unrecognized `evt.type`, which the
dispatch ignores. -/
inductive SSEEvent where
  | session_start (session_id : String)
  | model_progress (model : String) (stage : String) (elapsed : ℚ) (progress : ℚ)
  | model_complete (model : String) (elapsed : ℚ) (result_summary : Option ResultSummary)
      (result : Option ComparisonResult)
  | model_error (model : String) (stage : Option String) (elapsed : Option ℚ)
      (progress : Option ℚ)
  | error (message : Option String)
  | session_complete (session : ComparisonSession)
  | heartbeat
  | other
deriving DecidableEq

/-- One dispatch step of the SSE read loop (the `if/else if` chain on
`evt.type`). -/
def processEvent (s : AppState) (e : SSEEvent) : AppState :=
  match e with
  | SSEEvent.session_start _ => s
  | SSEEvent.model_progress m stg el pr =>
      { s with modelProgress :=
          upsert s.modelProgress m (progressUpdate (findEntry s.modelProgress m) stg el pr) }
  | SSEEvent.model_complete m el rs res =>
      let s1 : AppState :=
        { s with modelProgress :=
            upsert s.modelProgress m (completeUpdate (findEntry s.modelProgress m) el rs) }
      match res with
      | some r => { s1 with earlyResults := upsertResult s1.earlyResults m r }
      | none => s1
  | SSEEvent.model_error m stg el pr =>
      { s with modelProgress :=
          upsert s.modelProgress m (errorUpdate (findEntry s.modelProgress m) stg el pr) }
  | SSEEvent.error msg => { s with error := some (jsOrStr msg "Backend stream error") }
  | SSEEvent.session_complete sess => { s with latestSession := some sess }
  | SSEEvent.heartbeat => s
  | SSEEvent.other => s

/-- Events are consumed strictly in arrival order. -/
def processEvents (s : AppState) (evs : List SSEEvent) : AppState :=
  evs.foldl processEvent s

/-- `initialProgress`: one `Pending` entry per selected model, with
`stage: 'Initializing...'`, `startTime: Date.now()`, `currentDuration: 0`,
`progress: 0`. -/
def initialProgress (selected : List String) (now : ℚ) : List (String × WorkerProgress) :=
  selected.map (fun m =>
    (m, { stage := "Initializing..."
          startTime := some now
          currentDuration := some 0
          progress := 0
          status := Status.pending
          resultSummary := none }))

/-- The optimistic pre-stream update
`{...prev[model], status: 'running', stage: 'Running research...', progress: 0}`. -/
def startRunningUpdate (old : Option WorkerProgress) : WorkerProgress :=
  { stage := "Running research..."
    startTime := old.bind (fun p => p.startTime)
    currentDuration := old.bind (fun p => p.currentDuration)
    progress := 0
    status := Status.running
    resultSummary := old.bind (fun p => p.resultSummary) }

/-- State at the moment the stream opens: `runComparison` has set
`isRunning`, cleared `error`, `earlyResults` and `latestSession`,
installed `initialProgress` and optimistically marked every selected
model `running`. -/
def startState (selected : List String) (now : ℚ) : AppState :=
  { isRunning := true
    error := none
    earlyResults := []
    latestSession := none
    modelProgress :=
      selected.foldl
        (fun mp m => upsert mp m (startRunningUpdate (findEntry mp m)))
        (initialProgress selected now) }

/-- `stopComparison`: aborts the fetch, sets `isRunning` to `false` and
maps every `running` or `pending` entry to
`{...entry, status: 'failed', stage: 'Stopped by user'}`. -/
def stopComparison (s : AppState) : AppState :=
  { s with
    isRunning := false
    modelProgress := s.modelProgress.map (fun p =>
      if p.2.status = Status.running ∨ p.2.status = Status.pending then
        (p.1, { p.2 with status := Status.failed, stage := "Stopped by user" })
      else p) }

/-- How `runComparison`'s `catch` distinguishes its argument: the
`AbortError` raised by `stopComparison`'s abort, or any other failure
message. -/
inductive RunFailure where
  | aborted
  | failure (msg : String)
deriving DecidableEq

/-- The error path of `runComparison`'s `catch`:
`selectedModels.forEach` setting
`{...prev[model], status: 'failed', stage: 'Failed', progress: prev[model]?.progress || 0}`. -/
def markAllFailed (sel : List String) (mp : List (String × WorkerProgress)) :
    List (String × WorkerProgress) :=
  sel.foldl
    (fun acc m =>
      let old := findEntry acc m
      upsert acc m
        { stage := "Failed"
          startTime := old.bind (fun p => p.startTime)
          currentDuration := old.bind (fun p => p.currentDuration)
          progress := jsOrNum (old.map (fun p => p.progress)) 0
          status := Status.failed
          resultSummary := old.bind (fun p => p.resultSummary) })
    mp

/-- `runComparison`'s `catch` block: an `AbortError` (user stop) returns
early and touches nothing; any other failure sets the run-level error
and marks every selected model failed. -/
def handleRunCatch (s : AppState) (sel : List String) : RunFailure → AppState
  | RunFailure.aborted => s
  | RunFailure.failure msg =>
      { s with error := some msg, modelProgress := markAllFailed sel s.modelProgress }

/-- Outcome of the `fetchComparisonData` GET awaited after the read
loop: the response parsed, or the fetch/parse threw with a message. -/
inductive FetchOutcome where
  | success
  | failure (msg : String)
deriving DecidableEq

/-- `fetchComparisonData` as it touches this state: it always runs
`setError(null)` first, then on success writes only the aggregate
`comparisonData`/`loading` state (not modelled here), and on failure
runs `setError(err.message)`.  It never touches the worker map. -/
def fetchComparisonData (s : AppState) : FetchOutcome → AppState
  | FetchOutcome.success => { s with error := none }
  | FetchOutcome.failure msg => { s with error := some msg }

/-- The post-loop path on a normal or timeout loop exit
(`clearTimeout`, `await fetchComparisonData()`, `finally`): the metric
refresh rewrites the run-level `error` (clearing it, or replacing it
with the refresh failure's message) and the `finally` sets
`isRunning := false`.  The worker map is not written. -/
def finalizeRun (s : AppState) (fo : FetchOutcome) : AppState :=
  { fetchComparisonData s fo with isRunning := false }

/-- The six-minute stream timeout (`STREAM_TIMEOUT_MS = 6 * 60 * 1000`)
calls `reader.cancel()` and nothing else; the next `reader.read()`
resolves with `done`, so the loop exits normally having processed only
the events decoded before the cutoff, and the post-loop path (metric
refresh with outcome `fo`, then `finally`) runs. -/
def runWithTimeout (s : AppState) (evs : List SSEEvent) (cutoff : Nat)
    (fo : FetchOutcome) : AppState :=
  finalizeRun (processEvents s (evs.take cutoff)) fo

/-- One worker's update inside the one-second `setInterval` callback,
at position `i` of `Object.keys(prev)` (insertion order).  For a
`running` entry: `elapsed = (Date.now() - startTime) / 1000` (`none`
models the `NaN` arising from a missing `startTime`; every comparison
with `NaN` is false, and `Math.max(0, NaN)` is `NaN`), `modelDelay = 2 + i * 1.2`,
`modelRate = 0.35 + i * 0.12`, `adjustedElapsed = Math.max(0, elapsed - modelDelay)`,
`syntheticProgress = progress < 15 && adjustedElapsed > 0 ? Math.min(15, Math.max(progress, 1 + Math.floor(adjustedElapsed * modelRate))) : progress`,
and the entry is replaced by
`{...entry, currentDuration: elapsed, progress: Math.max(progress, syntheticProgress)}`.
Non-`running` entries are left as they are. -/
def tickEntry (now : ℚ) (i : Nat) (p : WorkerProgress) : WorkerProgress :=
  if p.status = Status.running then
    let elapsedOpt : Option ℚ := p.startTime.map (fun st => (now - st) / 1000)
    let modelDelay : ℚ := 2 + (i : ℚ) * 1.2
    let modelRate : ℚ := 0.35 + (i : ℚ) * 0.12
    let syntheticProgress : ℚ :=
      match elapsedOpt with
      | some e =>
          let adjustedElapsed : ℚ := max 0 (e - modelDelay)
          if p.progress < 15 ∧ 0 < adjustedElapsed then
            min 15 (max p.progress ((1 + ⌊adjustedElapsed * modelRate⌋ : ℤ) : ℚ))
          else p.progress
      | none => p.progress
    { p with currentDuration := elapsedOpt
             progress := max p.progress syntheticProgress }
  else p

/-- The `models.forEach((model, modelIndex) => ...)` walk of the tick
callback, threading the index. -/
def tickAux (now : ℚ) (i : Nat) : List (String × WorkerProgress) → List (String × WorkerProgress)
  | [] => []
  | (m, p) :: rest => (m, tickEntry now i p) :: tickAux now (i + 1) rest

/-- The whole `setModelProgress` update performed by one tick. -/
def tickMap (now : ℚ) (mp : List (String × WorkerProgress)) : List (String × WorkerProgress) :=
  tickAux now 0 mp

/-- One firing of the interval: the effect only exists while
`isRunning` is true (`if (!isRunning) return`). -/
def tick (now : ℚ) (s : AppState) : AppState :=
  if s.isRunning then { s with modelProgress := tickMap now s.modelProgress } else s

/-- Modelled from the spec (§4.5 / claim C6's formula): the claimed
displayed value after a tick for a worker with current progress `cur`,
elapsed seconds `e` and index `i`:
`max(cur, min(15, 1 + floor(max(0, e - (2 + 1.2 * i)) * (0.35 + 0.12 * i))))`. -/
def claimedTickProgress (cur e : ℚ) (i : Nat) : ℚ :=
  max cur (min 15 ((1 + ⌊max 0 (e - (2 + (i : ℚ) * 1.2)) * (0.35 + (i : ℚ) * 0.12)⌋ : ℤ) : ℚ))

/-! ## Frame decoder

`sseBuffer += decoder.decode(value); const lines = sseBuffer.split('\n');
sseBuffer = lines.pop() || ''` — modelled on `List Char`. -/

/-- `split('\n')` followed by `pop`: the complete lines (everything up
to the last newline, in order) and the trailing partial line. -/
def splitBuffer : List Char → List (List Char) × List Char
  | [] => ([], [])
  | c :: rest =>
      let s := splitBuffer rest
      if c = '\n' then (([] : List Char) :: s.1, s.2)
      else
        match s.1 with
        | [] => ([], c :: s.2)
        | l :: ls => ((c :: l) :: ls, s.2)

/-- `rawLine.replace(/\r$/, '')`: strip one trailing carriage return. -/
def stripCR (l : List Char) : List Char :=
  if l.getLast? = some '\r' then l.dropLast else l

/-- The read loop over the chunks delivered by the reader, starting
from buffer `buf`: each chunk is appended to the buffer, the complete
lines are emitted and the trailing partial line is carried to the next
iteration; the buffer left over at stream end is discarded. -/
def runDecoder (buf : List Char) : List (List Char) → List (List Char) × List Char
  | [] => ([], buf)
  | c :: cs =>
      let s := splitBuffer (buf ++ c)
      let rest := runDecoder s.2 cs
      (s.1 ++ rest.1, rest.2)

/-- The ordered sequence of records the decoder emits for a chunk
sequence: the complete lines, each with one trailing `'\r'` stripped. -/
def decodedRecords (chunks : List (List Char)) : List (List Char) :=
  (runDecoder [] chunks).1.map stripCR

/-- Prepend a leftover buffer onto the first of a list of lines (the
effect of concatenating two buffers whose boundary falls inside the
first line of the second). -/
def glueFirst (t : List Char) : List (List Char) → List (List Char)
  | [] => []
  | l :: ls => (t ++ l) :: ls

/-! ## Helper lemmas -/

lemma findEntry_upsert_self (mp : List (String × WorkerProgress)) (k : String)
    (v : WorkerProgress) : findEntry (upsert mp k v) k = some v := by
  induction mp with
  | nil => simp [upsert, findEntry]
  | cons hd tl ih =>
      obtain ⟨k', v'⟩ := hd
      by_cases h : k' = k
      · simp [upsert, findEntry, h]
      · simp [upsert, findEntry, h, ih]

lemma findEntry_upsert_ne (mp : List (String × WorkerProgress)) (k k2 : String)
    (v : WorkerProgress) (h : k2 ≠ k) : findEntry (upsert mp k v) k2 = findEntry mp k2 := by
  have h' : ¬ k = k2 := fun hh => h hh.symm
  induction mp with
  | nil => simp [upsert, findEntry, h']
  | cons hd tl ih =>
      obtain ⟨k', v'⟩ := hd
      by_cases hk : k' = k
      · subst hk
        simp [upsert, findEntry, h']
      · by_cases hk2 : k' = k2
        · simp [upsert, findEntry, hk, hk2, h]
        · simp [upsert, findEntry, hk, hk2, ih]

lemma progress_le_tickEntry (now : ℚ) (i : Nat) (p : WorkerProgress) :
    p.progress ≤ (tickEntry now i p).progress := by
  unfold tickEntry
  by_cases h : p.status = Status.running
  · simp [h]
  · simp [h]

lemma forall2_tickAux (now : ℚ) (i : Nat) (mp : List (String × WorkerProgress)) :
    List.Forall₂ (fun a b : String × WorkerProgress => a.1 = b.1 ∧ a.2.progress ≤ b.2.progress)
      mp (tickAux now i mp) := by
  induction mp generalizing i with
  | nil => simp [tickAux]
  | cons hd tl ih =>
      obtain ⟨m, p⟩ := hd
      exact List.Forall₂.cons ⟨rfl, progress_le_tickEntry now i p⟩ (ih (i + 1))

lemma max_min_max_eq (cur x : ℚ) (h : cur < 15) :
    max cur (min 15 (max cur x)) = max cur (min 15 x) := by
  rcases le_total cur x with hle | hle
  · rw [max_eq_right hle]
  · rw [max_eq_left hle, min_eq_right h.le, max_self,
        min_eq_right (hle.trans h.le), max_eq_left hle]

lemma splitBuffer_no_newline (l : List Char) (h : ¬ '\n' ∈ l) : splitBuffer l = ([], l) := by
  induction l with
  | nil => rfl
  | cons c rest ih =>
      have hc : ¬ c = '\n' := fun hc => h (hc ▸ List.mem_cons_self c rest)
      have hr : ¬ '\n' ∈ rest := fun hm => h (List.mem_cons_of_mem c hm)
      simp [splitBuffer, hc, ih hr]

lemma newline_not_mem_splitBuffer_snd (l : List Char) : ¬ '\n' ∈ (splitBuffer l).2 := by
  induction l with
  | nil => simp [splitBuffer]
  | cons c rest ih =>
      by_cases hc : c = '\n'
      · simpa [splitBuffer, hc] using ih
      · cases hfst : (splitBuffer rest).1 with
        | nil =>
            simp only [splitBuffer, if_neg hc, hfst]
            intro hm
            rcases List.mem_cons.mp hm with h1 | h2
            · exact hc h1.symm
            · exact ih h2
        | cons l0 ls => simpa [splitBuffer, hc, hfst] using ih

lemma glueFirst_nil (t : List Char) : glueFirst t [] = [] := rfl

lemma splitBuffer_append (a b : List Char) :
    splitBuffer (a ++ b) =
      ((splitBuffer a).1 ++ glueFirst (splitBuffer a).2 (splitBuffer b).1,
       if (splitBuffer b).1 = [] then (splitBuffer a).2 ++ (splitBuffer b).2
       else (splitBuffer b).2) := by
  induction a with
  | nil =>
      have hg : ∀ ls : List (List Char), glueFirst [] ls = ls := by
        intro ls
        cases ls <;> simp [glueFirst]
      simp [splitBuffer, hg]
  | cons c a' ih =>
      by_cases hc : c = '\n'
      · simp [splitBuffer, hc, ih]
      · cases ha : (splitBuffer a').1 with
        | nil =>
            cases hb : (splitBuffer b).1 with
            | nil =>
                simp [splitBuffer, hc, ih, ha, hb, glueFirst]
            | cons m' ms' =>
                simp [splitBuffer, hc, ih, ha, hb, glueFirst]
        | cons m ms =>
            cases hb : (splitBuffer b).1 with
            | nil =>
                simp [splitBuffer, hc, ih, ha, hb, glueFirst]
            | cons m' ms' =>
                simp [splitBuffer, hc, ih, ha, hb, glueFirst]

lemma runDecoder_eq_join (chunks : List (List Char)) (buf : List Char)
    (h : ¬ '\n' ∈ buf) : runDecoder buf chunks = splitBuffer (buf ++ chunks.flatten) := by
  induction chunks generalizing buf with
  | nil => simp [runDecoder, splitBuffer_no_newline buf h]
  | cons c cs ih =>
      have hbuf : ¬ '\n' ∈ (splitBuffer (buf ++ c)).2 :=
        newline_not_mem_splitBuffer_snd (buf ++ c)
      have hsplit := splitBuffer_no_newline _ hbuf
      calc runDecoder buf (c :: cs)
          = ((splitBuffer (buf ++ c)).1 ++ (runDecoder (splitBuffer (buf ++ c)).2 cs).1,
             (runDecoder (splitBuffer (buf ++ c)).2 cs).2) := rfl
        _ = splitBuffer (buf ++ (c :: cs).flatten) := by
            rw [ih _ hbuf]
            have h1 := splitBuffer_append (buf ++ c) cs.flatten
            have h2 := splitBuffer_append (splitBuffer (buf ++ c)).2 cs.flatten
            rw [hsplit] at h2
            simp only [List.flatten_cons, ← List.append_assoc]
            rw [h1, h2]
            simp

/-! ## Concrete inputs used to instantiate the theorems -/

/-- A state with no run in progress and an empty worker map. -/
def emptyState : AppState :=
  { isRunning := false, error := none, earlyResults := [], latestSession := none,
    modelProgress := [] }

/-- The `modelProgress` entry of a freshly started worker. -/
def freshWorker : WorkerProgress :=
  { stage := "Running research...", startTime := some 0, currentDuration := some 0,
    progress := 0, status := Status.running, resultSummary := none }

/-- A concrete successful `ComparisonResult` for worker `"zhipu"`. -/
def sampleResult : ComparisonResult :=
  { model := "zhipu", duration := 10
    stage_timings := { clarification := 1, research_brief := 2,
                       research_execution := 3, final_report := 4 }
    sources_found := 3, word_count := 500, success := true, error := none
    report_content := "report", supervisor_tools_used := [] }

/-- A newer result for the same worker as `sampleResult`. -/
def sampleResult2 : ComparisonResult :=
  { sampleResult with report_content := "newer report" }

/-! ## C4: frame decoder is chunking-invariant -/

/-- C4: for every fixed record text and every way of splitting it into
chunks, the frame decoder emits exactly the same ordered sequence of
complete records: the buffered fold over the chunks equals one split of
the concatenated text, so the emitted records depend only on the
concatenation (never on where it was split, including splits exactly on
a record boundary), and one trailing carriage return is stripped from
each emitted line. -/
theorem decoder_chunking_invariant :
    (∀ chunks : List (List Char), runDecoder [] chunks = splitBuffer chunks.flatten)
    ∧ (∀ chunks : List (List Char),
        decodedRecords chunks = (splitBuffer chunks.flatten).1.map stripCR)
    ∧ (∀ chunks chunks' : List (List Char), chunks.flatten = chunks'.flatten →
        decodedRecords chunks = decodedRecords chunks')
    ∧ (∀ l : List Char, stripCR (l ++ [Char.ofNat 13]) = l) := by
  have h1 : ∀ chunks : List (List Char), runDecoder [] chunks = splitBuffer chunks.flatten := by
    intro chunks
    simpa using runDecoder_eq_join chunks [] (by simp)
  have h2 : ∀ chunks : List (List Char),
      decodedRecords chunks = (splitBuffer chunks.flatten).1.map stripCR := by
    intro chunks
    rw [decodedRecords, h1]
  refine ⟨h1, h2, fun chunks chunks' h => ?_, fun l => ?_⟩
  · rw [h2, h2, h]
  · rw [stripCR]
    simp

/-- Witness for C4: a split in the middle of a record and a split
exactly on a record boundary decode to the same two records. -/
theorem decoder_chunking_invariant_witness :
    decodedRecords [['d','a','t','a',':',' ','a','\r','\n','d'], ['a','t','a',':',' ','b','\n']]
      = decodedRecords [['d','a','t','a',':',' ','a','\r','\n'], ['d','a','t','a',':',' ','b','\n']] :=
  decoder_chunking_invariant.2.2.1 _ _ (by decide)

/-! ## C9: `model_progress` upserts, creating missing entries -/

/-- C9: processing a `model_progress` event for worker `w` always
leaves the progress map containing key `w` with the event's stage,
elapsed and progress and status `running`; when `w` had no entry (it
was not among the selected workers initialized at run start) a fresh
entry is created from the spread of `undefined` rather than the event
being ignored. -/
theorem model_progress_always_upserts (s : AppState) (m stg : String) (el pr : ℚ) :
    findEntry (processEvent s (SSEEvent.model_progress m stg el pr)).modelProgress m
      = some (progressUpdate (findEntry s.modelProgress m) stg el pr)
    ∧ (∀ old : Option WorkerProgress,
        (progressUpdate old stg el pr).stage = stg
        ∧ (progressUpdate old stg el pr).currentDuration = some el
        ∧ (progressUpdate old stg el pr).progress = pr
        ∧ (progressUpdate old stg el pr).status = Status.running)
    ∧ progressUpdate none stg el pr =
        { stage := stg, startTime := none, currentDuration := some el, progress := pr,
          status := Status.running, resultSummary := none } := by
  refine ⟨?_, fun old => ⟨rfl, rfl, rfl, rfl⟩, rfl⟩
  simp [processEvent, findEntry_upsert_self]

/-! ## C10: `model_error` coerces absent/zero progress to 0 -/

/-- C10: a `model_error` event stores `evt.progress || 0` while marking
the worker `failed`: an absent or zero progress field forces the
displayed progress to 0 (a regression for a worker that was showing
nonzero progress), and a present nonzero field is stored verbatim. -/
theorem model_error_progress_or_zero (s : AppState) (m : String)
    (stg : Option String) (el : Option ℚ) (po : Option ℚ) :
    findEntry (processEvent s (SSEEvent.model_error m stg el po)).modelProgress m
      = some (errorUpdate (findEntry s.modelProgress m) stg el po)
    ∧ (∀ old : Option WorkerProgress,
        (errorUpdate old stg el none).progress = 0
        ∧ (errorUpdate old stg el (some 0)).progress = 0
        ∧ (errorUpdate old stg el po).status = Status.failed)
    ∧ (∀ (old : Option WorkerProgress) (p : ℚ), p ≠ 0 →
        (errorUpdate old stg el (some p)).progress = p) := by
  refine ⟨?_, fun old => ⟨rfl, by simp [errorUpdate, jsOrNum], rfl⟩, fun old p hp => ?_⟩
  · simp [processEvent, findEntry_upsert_self]
  · simp [errorUpdate, jsOrNum, hp]

/-- Witness for C10 at a concrete nonzero progress value. -/
theorem model_error_progress_or_zero_witness :
    (errorUpdate none none none (some 7)).progress = 7 :=
  (model_error_progress_or_zero emptyState "zhipu" none none (some 7)).2.2 none 7 (by decide)

/-! ## C5: stop() fails exactly the non-terminal workers -/

/-- C5: `stopComparison` marks the run not running, leaves the
run-level error untouched, transitions exactly the `running` and
`pending` entries to `failed` with the `"Stopped by user"` stage label,
and leaves every `completed` (and already `failed`) entry unchanged;
the `AbortError` the aborted fetch raises is swallowed by the catch
without setting the error. -/
theorem stop_marks_exactly_nonterminal (s : AppState) (sel : List String) :
    (stopComparison s).isRunning = false
    ∧ (stopComparison s).error = s.error
    ∧ (stopComparison s).earlyResults = s.earlyResults
    ∧ handleRunCatch s sel RunFailure.aborted = s
    ∧ List.Forall₂ (fun a b : String × WorkerProgress =>
        a.1 = b.1
        ∧ ((a.2.status = Status.running ∨ a.2.status = Status.pending) →
            b.2 = { a.2 with status := Status.failed, stage := "Stopped by user" })
        ∧ (a.2.status = Status.completed → b.2 = a.2)
        ∧ (a.2.status = Status.failed → b.2 = a.2))
        s.modelProgress (stopComparison s).modelProgress := by
  refine ⟨rfl, rfl, rfl, rfl, ?_⟩
  show List.Forall₂ _ s.modelProgress (s.modelProgress.map _)
  generalize s.modelProgress = l
  induction l with
  | nil => exact List.Forall₂.nil
  | cons hd tl ih =>
      refine List.Forall₂.cons ?_ ih
      obtain ⟨m, p⟩ := hd
      cases hstat : p.status <;> simp [hstat]

/-- Witness for C5: stopping a run with one completed and one running
worker fails exactly the running one and keeps the completed entry. -/
theorem stop_marks_exactly_nonterminal_witness :
    (stopComparison (processEvents (startState ["zhipu", "kimi"] 0)
        [SSEEvent.model_complete "zhipu" 12 none none])).isRunning = false
    ∧ ((findEntry (stopComparison (processEvents (startState ["zhipu", "kimi"] 0)
        [SSEEvent.model_complete "zhipu" 12 none none])).modelProgress "zhipu").map
        (fun p => (p.status, p.stage)) = some (Status.completed, "Completed"))
    ∧ ((findEntry (stopComparison (processEvents (startState ["zhipu", "kimi"] 0)
        [SSEEvent.model_complete "zhipu" 12 none none])).modelProgress "kimi").map
        (fun p => (p.status, p.stage)) = some (Status.failed, "Stopped by user")) :=
  ⟨(stop_marks_exactly_nonterminal (processEvents (startState ["zhipu", "kimi"] 0)
      [SSEEvent.model_complete "zhipu" 12 none none]) ["zhipu", "kimi"]).1,
   by decide, by decide⟩

/-! ## C8: stream-level `error` event -/

/-- C8: an `error`-kind event sets the run-level error to the event's
(nonempty) message and changes no worker entry nor the early results,
and processing continues: an `error` event followed by `model_complete`
events for two distinct workers leaves the run-level error set while
both workers end `completed` at progress 100. -/
theorem error_event_sets_error_only (s : AppState) (msg m1 m2 : String)
    (e1 e2 : ℚ) (rs1 rs2 : Option ResultSummary)
    (hmsg : msg ≠ "") (hne : m1 ≠ m2) :
    (processEvent s (SSEEvent.error (some msg))).error = some msg
    ∧ (processEvent s (SSEEvent.error (some msg))).modelProgress = s.modelProgress
    ∧ (processEvent s (SSEEvent.error (some msg))).earlyResults = s.earlyResults
    ∧ (processEvents s [SSEEvent.error (some msg),
         SSEEvent.model_complete m1 e1 rs1 none,
         SSEEvent.model_complete m2 e2 rs2 none]).error = some msg
    ∧ (findEntry (processEvents s [SSEEvent.error (some msg),
         SSEEvent.model_complete m1 e1 rs1 none,
         SSEEvent.model_complete m2 e2 rs2 none]).modelProgress m1).map
        (fun p => (p.status, p.progress)) = some (Status.completed, 100)
    ∧ (findEntry (processEvents s [SSEEvent.error (some msg),
         SSEEvent.model_complete m1 e1 rs1 none,
         SSEEvent.model_complete m2 e2 rs2 none]).modelProgress m2).map
        (fun p => (p.status, p.progress)) = some (Status.completed, 100) := by
  have herr : (processEvent s (SSEEvent.error (some msg))).error = some msg := by
    simp [processEvent, jsOrStr, hmsg]
  refine ⟨herr, rfl, rfl, ?_, ?_, ?_⟩
  · simp [processEvents, processEvent, jsOrStr, hmsg]
  · simp only [processEvents, List.foldl, processEvent]
    rw [findEntry_upsert_ne _ _ _ _ hne, findEntry_upsert_self]
    rfl
  · simp only [processEvents, List.foldl, processEvent]
    rw [findEntry_upsert_self]
    rfl

/-- Witness for C8 with a concrete message and two concrete workers. -/
theorem error_event_sets_error_only_witness :
    (processEvents (startState ["zhipu", "kimi"] 0)
        [SSEEvent.error (some "backend exploded"),
         SSEEvent.model_complete "zhipu" 10 none none,
         SSEEvent.model_complete "kimi" 11 none none]).error = some "backend exploded"
    ∧ (findEntry (processEvents (startState ["zhipu", "kimi"] 0)
        [SSEEvent.error (some "backend exploded"),
         SSEEvent.model_complete "zhipu" 10 none none,
         SSEEvent.model_complete "kimi" 11 none none]).modelProgress "zhipu").map
        (fun p => (p.status, p.progress)) = some (Status.completed, 100)
    ∧ (findEntry (processEvents (startState ["zhipu", "kimi"] 0)
        [SSEEvent.error (some "backend exploded"),
         SSEEvent.model_complete "zhipu" 10 none none,
         SSEEvent.model_complete "kimi" 11 none none]).modelProgress "kimi").map
        (fun p => (p.status, p.progress)) = some (Status.completed, 100) := by
  have h := error_event_sets_error_only (startState ["zhipu", "kimi"] 0)
    "backend exploded" "zhipu" "kimi" 10 11 none none (by decide) (by decide)
  exact ⟨h.2.2.2.1, h.2.2.2.2.1, h.2.2.2.2.2⟩

/-! ## C1: displayed progress and monotonicity -/

/-- Counterexample to C1: a `model_progress` event carrying a server
progress below the currently displayed value lowers the displayed
progress (50 then 10 for the same worker leaves 10), so the handler
does not take `max(serverProgress, currentDisplayedProgress)`. -/
theorem progress_event_lowers_displayed :
    ((findEntry (processEvents (startState ["zhipu"] 0)
        [SSEEvent.model_progress "zhipu" "Researching" 5 50]).modelProgress "zhipu").map
        (fun p => p.progress) = some 50)
    ∧ ((findEntry (processEvents (startState ["zhipu"] 0)
        [SSEEvent.model_progress "zhipu" "Researching" 5 50,
         SSEEvent.model_progress "zhipu" "Researching" 6 10]).modelProgress "zhipu").map
        (fun p => p.progress) = some 10)
    ∧ (10 : ℚ) < 50 := by decide

/-- C1 (amended): displayed progress never decreases under local
one-second ticks — each tick stores `max` of the current and synthetic
values — but a `model_progress` event replaces displayed progress with
exactly the server value rather than `max(serverProgress, current)`,
so a lower server value does lower the displayed progress. -/
theorem tick_monotone_progress_event_exact :
    (∀ (now : ℚ) (i : Nat) (mp : List (String × WorkerProgress)),
        List.Forall₂ (fun a b : String × WorkerProgress =>
          a.1 = b.1 ∧ a.2.progress ≤ b.2.progress) mp (tickAux now i mp))
    ∧ (∀ (s : AppState) (now : ℚ),
        List.Forall₂ (fun a b : String × WorkerProgress =>
          a.1 = b.1 ∧ a.2.progress ≤ b.2.progress) s.modelProgress (tick now s).modelProgress)
    ∧ (∀ (s : AppState) (m stg : String) (el pr : ℚ),
        (findEntry (processEvent s (SSEEvent.model_progress m stg el pr)).modelProgress m).map
          (fun p => p.progress) = some pr) := by
  refine ⟨forall2_tickAux, fun s now => ?_, fun s m stg el pr => ?_⟩
  · rw [tick]
    by_cases h : s.isRunning
    · simpa [h, tickMap] using forall2_tickAux now 0 s.modelProgress
    · simp only [h, if_neg, Bool.false_eq_true, if_false]
      exact List.forall₂_same.mpr fun x _ => ⟨rfl, le_rfl⟩
  · simp [processEvent, findEntry_upsert_self, progressUpdate]

/-! ## C2: `model_complete` pins 100/Completed, but terminal states are not sticky -/

/-- Counterexample to C2: after `model_complete` the worker shows
`completed` at 100, but a subsequent `model_progress` for the same
worker is not ignored — it moves the worker back to `running` with the
server's progress value. -/
theorem complete_then_progress_changes_state :
    ((findEntry (processEvents (startState ["zhipu"] 0)
        [SSEEvent.model_complete "zhipu" 12 none none]).modelProgress "zhipu").map
        (fun p => (p.status, p.progress)) = some (Status.completed, 100))
    ∧ ((findEntry (processEvents (startState ["zhipu"] 0)
        [SSEEvent.model_complete "zhipu" 12 none none,
         SSEEvent.model_progress "zhipu" "Synthesizing" 13 30]).modelProgress "zhipu").map
        (fun p => (p.status, p.progress)) = some (Status.running, 30))
    ∧ Status.running ≠ Status.completed
    ∧ (30 : ℚ) ≠ 100 := by decide

/-- C2 (amended): immediately after `model_complete` for worker `W`
the entry shows progress 100 and state `completed`, but terminal states
accept further transitions: a later `model_progress` for `W` sets it
back to `running` with the server's progress, and a later `model_error`
sets it to `failed`. -/
theorem complete_pins_100_but_not_sticky :
    (∀ (s : AppState) (m : String) (el : ℚ) (rs : Option ResultSummary)
        (res : Option ComparisonResult),
        (findEntry (processEvent s (SSEEvent.model_complete m el rs res)).modelProgress m).map
          (fun p => (p.status, p.progress)) = some (Status.completed, 100))
    ∧ (∀ (s : AppState) (m stg : String) (el pr : ℚ),
        (findEntry (processEvent s (SSEEvent.model_progress m stg el pr)).modelProgress m).map
          (fun p => (p.status, p.progress)) = some (Status.running, pr))
    ∧ (∀ (s : AppState) (m : String) (stg : Option String) (el pr : Option ℚ),
        (findEntry (processEvent s (SSEEvent.model_error m stg el pr)).modelProgress m).map
          (fun p => p.status) = some Status.failed) := by
  refine ⟨fun s m el rs res => ?_, fun s m stg el pr => ?_, fun s m stg el pr => ?_⟩
  · cases res <;> simp [processEvent, findEntry_upsert_self, completeUpdate]
  · simp [processEvent, findEntry_upsert_self, progressUpdate]
  · simp [processEvent, findEntry_upsert_self, errorUpdate]

/-! ## C3: the six-minute ceiling cancels but does not fail workers -/

/-- Counterexample to C3: when the six-minute ceiling fires on a run
with a still-running worker and no further events (metrics refresh
succeeding), the worker is left `running` with its last stage label —
it is not marked `Failed` and no timeout-specific label is applied. -/
theorem timeout_leaves_worker_running :
    ((findEntry (runWithTimeout (startState ["zhipu"] 0) [] 0
        FetchOutcome.success).modelProgress "zhipu").map
        (fun p => (p.status, p.stage)) = some (Status.running, "Running research..."))
    ∧ Status.running ≠ Status.failed := by decide

/-- C3 (amended): reaching the six-minute ceiling only cancels the
reader: events past the cutoff are never processed, the post-loop path
marks the run not running and its metrics refresh rewrites the
run-level error (clearing it on success, replacing it with the refresh
failure's message otherwise), but the worker map is exactly the one
produced by the events before the cutoff — in particular, when the
ceiling fires before any event, every worker keeps its current entry
(state and stage), and no entry is marked failed by the timeout
itself. -/
theorem timeout_cancels_without_failing_workers (s : AppState) (evs : List SSEEvent)
    (cutoff : Nat) (fo : FetchOutcome) :
    (runWithTimeout s evs cutoff fo).isRunning = false
    ∧ (runWithTimeout s evs cutoff fo).modelProgress
        = (processEvents s (evs.take cutoff)).modelProgress
    ∧ (runWithTimeout s evs cutoff fo).error
        = (match fo with
           | FetchOutcome.success => none
           | FetchOutcome.failure msg => some msg)
    ∧ (∀ m : String, findEntry (runWithTimeout s [] cutoff fo).modelProgress m
        = findEntry s.modelProgress m) := by
  cases fo with
  | success =>
      refine ⟨rfl, rfl, rfl, fun m => ?_⟩
      cases cutoff <;> rfl
  | failure msg =>
      refine ⟨rfl, rfl, rfl, fun m => ?_⟩
      cases cutoff <;> rfl

/-! ## C6: the synthetic progress estimate -/

/-- Counterexample to C6: at one second of elapsed time (before the
index-0 onset delay of 2 s) the tick leaves the worker's progress at 0,
while the claimed formula
`max(cur, min(15, 1 + floor(max(0, elapsed - delay) * rate)))` yields 1:
the code additionally guards on `adjustedElapsed > 0` and leaves the
progress untouched until the onset delay has strictly passed. -/
theorem tick_before_onset_differs_from_formula :
    ((findEntry (tick 1000 (startState ["zhipu"] 0)).modelProgress "zhipu").map
        (fun p => p.progress) = some 0)
    ∧ claimedTickProgress 0 ((1000 - 0) / 1000) 0 = 1
    ∧ (0 : ℚ) ≠ 1 := by
  have h1 : (startState ["zhipu"] 0).modelProgress = [("zhipu", freshWorker)] := by decide
  have h2 : (tick 1000 (startState ["zhipu"] 0)).modelProgress
      = [("zhipu", tickEntry 1000 0 freshWorker)] := by
    rw [tick, if_pos (show (startState ["zhipu"] 0).isRunning = true from rfl), h1]
    simp [tickMap, tickAux]
  refine ⟨?_, by norm_num [claimedTickProgress], by norm_num⟩
  rw [h2]
  simp only [findEntry, if_pos rfl, Option.map_some]
  norm_num [tickEntry, freshWorker]

/-- C6 (amended): on a tick, a `running` worker at index `i` with a
known start time and displayed progress below 15 follows the claimed
formula `max(cur, min(15, 1 + floor(max(0, elapsed - (2 + 1.2 * i)) * (0.35 + 0.12 * i))))`
only once `elapsed` strictly exceeds the onset delay `2 + 1.2 * i`;
at or before the delay the progress is left unchanged, and in every
case the tick never pushes the displayed progress above
`max(current, 15)`. -/
theorem tick_formula_after_onset (p : WorkerProgress) (now st : ℚ) (i : Nat)
    (hrun : p.status = Status.running) (hst : p.startTime = some st)
    (hlt : p.progress < 15) :
    (0 < max 0 ((now - st) / 1000 - (2 + (i : ℚ) * 1.2)) →
        (tickEntry now i p).progress = claimedTickProgress p.progress ((now - st) / 1000) i)
    ∧ ((now - st) / 1000 ≤ 2 + (i : ℚ) * 1.2 → (tickEntry now i p).progress = p.progress)
    ∧ (tickEntry now i p).progress ≤ max p.progress 15 := by
  have key : (tickEntry now i p).progress =
      max p.progress
        (if p.progress < 15 ∧ 0 < max 0 ((now - st) / 1000 - (2 + (i : ℚ) * 1.2)) then
          min 15 (max p.progress
            ((1 + ⌊max 0 ((now - st) / 1000 - (2 + (i : ℚ) * 1.2)) * (0.35 + (i : ℚ) * 0.12)⌋ : ℤ) : ℚ))
        else p.progress) := by
    simp [tickEntry, hrun, hst]
  refine ⟨fun hpos => ?_, fun hle => ?_, ?_⟩
  · rw [key, if_pos ⟨hlt, hpos⟩, claimedTickProgress]
    exact max_min_max_eq _ _ hlt
  · have h0 : max 0 ((now - st) / 1000 - (2 + (i : ℚ) * 1.2)) = 0 :=
      max_eq_left (by linarith)
    rw [key, h0]
    simp
  · rw [key]
    by_cases hc : p.progress < 15 ∧ 0 < max 0 ((now - st) / 1000 - (2 + (i : ℚ) * 1.2))
    · rw [if_pos hc]
      exact max_le_max le_rfl (min_le_left _ _)
    · rw [if_neg hc]
      simp

/-- Witness for C6 (amended) at index 0, start time 0 and four seconds
of elapsed time (past the 2 s onset delay). -/
theorem tick_formula_after_onset_witness :
    (tickEntry 4000 0 freshWorker).progress
      = claimedTickProgress freshWorker.progress ((4000 - 0) / 1000) 0 :=
  (tick_formula_after_onset freshWorker 4000 0 0 rfl rfl (by norm_num [freshWorker])).1
    (by norm_num [lt_max_iff])

/-! ## C7: at most one early result per worker -/

/-- Well-formedness of an event for C7: a `model_complete` carrying a
full result refers to that result's own worker (`evt.result.model`
agrees with `evt.model`, both set from the same worker by the
backend). -/
def wfComplete : SSEEvent → Bool
  | SSEEvent.model_complete m _ _ (some r) => r.model == m
  | _ => true

lemma upsertResult_models_nodup (l : List ComparisonResult) (m : String)
    (r : ComparisonResult) (hm : r.model = m)
    (h : (l.map (fun x => x.model)).Nodup) :
    ((upsertResult l m r).map (fun x => x.model)).Nodup := by
  rw [upsertResult, List.map_append, List.map_cons, List.map_nil, List.nodup_append]
  refine ⟨((List.filter_sublist l).map _).nodup h, List.nodup_singleton _, ?_⟩
  intro a ha hb
  simp only [List.mem_singleton] at hb
  simp only [List.mem_map, List.mem_filter] at ha
  obtain ⟨x, ⟨_, hxf⟩, hxa⟩ := ha
  rw [hb, hm] at hxa
  exact absurd hxa (by simpa using hxf)

lemma upsertResult_other_entries (l : List ComparisonResult) (m : String)
    (r : ComparisonResult) (hm : r.model = m) :
    (upsertResult l m r).filter (fun x => x.model != m)
      = l.filter (fun x => x.model != m) := by
  rw [upsertResult, List.filter_append]
  simp [hm, List.filter_filter]

lemma processEvents_earlyResults_nodup (evs : List SSEEvent) :
    ∀ s : AppState, (∀ e, e ∈ evs → wfComplete e = true) →
      (s.earlyResults.map (fun x => x.model)).Nodup →
      ((processEvents s evs).earlyResults.map (fun x => x.model)).Nodup := by
  induction evs with
  | nil => intro s _ h; simpa [processEvents] using h
  | cons e evs ih =>
      intro s hwf h
      have hstep : ((processEvent s e).earlyResults.map (fun x => x.model)).Nodup := by
        cases e with
        | model_complete m el rs res =>
            cases res with
            | none => simpa [processEvent] using h
            | some r =>
                have hm : r.model = m := by
                  have := hwf _ (List.mem_cons_self _ _)
                  simpa [wfComplete] using this
                simpa [processEvent] using upsertResult_models_nodup s.earlyResults m r hm h
        | session_start sid => simpa [processEvent] using h
        | model_progress m stg el pr => simpa [processEvent] using h
        | model_error m stg el pr => simpa [processEvent] using h
        | error msg => simpa [processEvent] using h
        | session_complete sess => simpa [processEvent] using h
        | heartbeat => simpa [processEvent] using h
        | other => simpa [processEvent] using h
      exact ih _ (fun e' he' => hwf e' (List.mem_cons_of_mem _ he')) hstep

/-- C7: the early-results list holds at most one entry per worker id:
an upsert (filter out the worker's old entry, append the newer result)
preserves distinctness of the worker keys, keeps the relative order of
the other workers' entries, and the distinctness invariant holds after
any sequence of well-formed events starting from a duplicate-free
list. -/
theorem early_results_at_most_one_per_worker :
    (∀ (l : List ComparisonResult) (m : String) (r : ComparisonResult), r.model = m →
        (l.map (fun x => x.model)).Nodup →
        ((upsertResult l m r).map (fun x => x.model)).Nodup)
    ∧ (∀ (l : List ComparisonResult) (m : String) (r : ComparisonResult), r.model = m →
        (upsertResult l m r).filter (fun x => x.model != m)
          = l.filter (fun x => x.model != m))
    ∧ (∀ (s : AppState) (evs : List SSEEvent),
        (∀ e, e ∈ evs → wfComplete e = true) →
        (s.earlyResults.map (fun x => x.model)).Nodup →
        ((processEvents s evs).earlyResults.map (fun x => x.model)).Nodup) :=
  ⟨upsertResult_models_nodup, upsertResult_other_entries,
   fun s evs => processEvents_earlyResults_nodup evs s⟩

/-- Witness for C7: two completions for the same worker leave exactly
one (the newer) entry. -/
theorem early_results_at_most_one_per_worker_witness :
    ((processEvents emptyState
        [SSEEvent.model_complete "zhipu" 1 none (some sampleResult),
         SSEEvent.model_complete "zhipu" 2 none (some sampleResult2)]).earlyResults.map
        (fun x => x.model)).Nodup
    ∧ (processEvents emptyState
        [SSEEvent.model_complete "zhipu" 1 none (some sampleResult),
         SSEEvent.model_complete "zhipu" 2 none (some sampleResult2)]).earlyResults
        = [sampleResult2] :=
  ⟨early_results_at_most_one_per_worker.2.2 emptyState _ (by decide) (by decide), by decide⟩
